import Mathlib

/-!
Verification development for the registrar verification core
(`src/primitives.rs`, `src/database.rs`, `src/adapters/admin.rs`,
`src/notifier.rs`).

The MongoDB-backed `Database` type is shallowly embedded as a pure state
`DbState` holding the `identities` collection (a list of `JudgementState`
documents) and the append-only `event_log` (a list of `Event` records).
Mongo's `update_one` / `update_many` with their `modified_count` semantics
(a matched document counts as modified only when the update actually
changed it) are embedded as `updateOne` / `updateMany` below.

Wall-clock reads (`Timestamp::now()`) and the RNG draw
(`thread_rng().gen_range(30..300)`) are nondeterministic inputs of the
Rust code; they are passed to each embedded operation as explicit
parameters `now` and `offset`.  A single `now` parameter stands for all
clock reads inside one operation (the clock is assumed not to advance
during a single call).  Timestamps are `u64` seconds since the epoch,
embedded as `Nat` (no realistic overflow); `failed_attempts` is `isize`,
embedded as `Int`.
-/

set_option maxHeartbeats 1000000

/-- `ChainName` from primitives.rs. -/
inductive ChainName where
  | polkadot
  | kusama
deriving DecidableEq

/-- `IdentityContext` from primitives.rs (`ChainAddress` is a newtype over
`String`, embedded as a plain `String`). -/
structure IdentityContext where
  address : String
  chain : ChainName
deriving DecidableEq

/-- `IdentityFieldValue` from primitives.rs. -/
inductive IdentityFieldValue where
  | legalName (s : String)
  | displayName (s : String)
  | email (s : String)
  | web (s : String)
  | twitter (s : String)
  | matrix (s : String)
  | pgpFingerprint
  | image
  | additional
deriving DecidableEq

/-- `ExpectedMessage` from primitives.rs. -/
structure ExpectedMessage where
  value : String
  is_verified : Bool
deriving DecidableEq

/-- `DisplayNameEntry` from connector.rs (not under src/).
Modelled from the spec: `DisplayNameEntry = { context, display_name }`. -/
structure DisplayNameEntry where
  context : IdentityContext
  display_name : String
deriving DecidableEq

/-- `ChallengeType` from primitives.rs. -/
inductive ChallengeType where
  | expectedMessage (expected : ExpectedMessage) (second : Option ExpectedMessage)
  | displayNameCheck (passed : Bool) (violations : List DisplayNameEntry)
  | unsupported (is_verified : Option Bool)
deriving DecidableEq

/-- `ChallengeType::is_verified` from primitives.rs. -/
def ChallengeType.is_verified : ChallengeType → Bool
  | .expectedMessage expected second =>
    match second with
    | some s => expected.is_verified && s.is_verified
    | none => expected.is_verified
  | .displayNameCheck passed _ => passed
  | .unsupported iv => iv.getD false

/-- `IdentityField` from primitives.rs. -/
structure IdentityField where
  value : IdentityFieldValue
  challenge : ChallengeType
  failed_attempts : Int
deriving DecidableEq

/-- `JudgementState` from primitives.rs. -/
structure JudgementState where
  context : IdentityContext
  is_fully_verified : Bool
  inserted_timestamp : Nat
  completion_timestamp : Option Nat
  judgement_submitted : Bool
  issue_judgement_at : Option Nat
  fields : List IdentityField
deriving DecidableEq

/-- `JudgementState::check_full_verification` from primitives.rs. -/
def JudgementState.check_full_verification (s : JudgementState) : Bool :=
  s.fields.all (fun field => field.challenge.is_verified)

/-- `ExternalMessageType` from primitives.rs. -/
inductive ExternalMessageType where
  | email (s : String)
  | twitter (s : String)
  | matrix (s : String)
deriving DecidableEq

/-- `ExternalMessage` from primitives.rs (`MessageId` is a `u64` newtype,
embedded as `Nat`; `MessagePart` is a `String` newtype, embedded as
`String`). -/
structure ExternalMessage where
  origin : ExternalMessageType
  id : Nat
  timestamp : Nat
  values : List String
deriving DecidableEq

/-- `IdentityFieldValue::matches` from primitives.rs (called
`matches_origin` at its use site in database.rs; same function).  True iff
the field kind is Email/Twitter/Matrix and its payload equals the message
origin payload of the same kind. -/
def matches_origin (v : IdentityFieldValue) (origin : ExternalMessageType) : Bool :=
  match v, origin with
  | .email n1, .email n2 => decide (n1 = n2)
  | .twitter n1, .twitter n2 => decide (n1 = n2)
  | .matrix n1, .matrix n2 => decide (n1 = n2)
  | _, _ => false

/-- `RawFieldName` from adapters/admin.rs.  The `all` variant is
constructed by database.rs (`RawFieldName::All`, database.rs line 193) but
its declaration is absent from the snapshot's admin.rs (which predates
database.rs).  Modelled from the spec: `All` is a meta-name handled at a
higher level; passing it to `verify_manually` fails with
invalid-argument. -/
inductive RawFieldName where
  | legalName
  | displayName
  | email
  | web
  | twitter
  | matrix
  | all
deriving DecidableEq

/-- The `Display` impl for `RawFieldName` in admin.rs (used by database.rs
as the value of the `fields.value.type` query key).  The snapshot's
`Display` has no `All` arm; the spec token for the meta-name is `all`. -/
def RawFieldName.fieldType : RawFieldName → String
  | .legalName => "legal_name"
  | .displayName => "display_name"
  | .email => "email"
  | .web => "web"
  | .twitter => "twitter"
  | .matrix => "matrix"
  | .all => "all"

/-- The serde `type` tag of an `IdentityFieldValue`
(`rename_all = "snake_case"`, `tag = "type"`). -/
def IdentityFieldValue.typeTag : IdentityFieldValue → String
  | .legalName _ => "legal_name"
  | .displayName _ => "display_name"
  | .email _ => "email"
  | .web _ => "web"
  | .twitter _ => "twitter"
  | .matrix _ => "matrix"
  | .pgpFingerprint => "p_g_p_fingerprint"
  | .image => "image"
  | .additional => "additional"

/-- `NotificationMessage` from primitives.rs lines 416-453, which
enumerates ten variants.  The eleventh variant `fullManualVerification` is
constructed by database.rs line 665 (`NotificationMessage::FullManualVerification`)
but is absent from the snapshot's primitives.rs declaration.
Modelled from the spec: `NotificationMessage.type` also enumerates
`full_manual_verification` (spec section 6); it is included here so that
`full_manual_verification` (database.rs lines 616-674) can be embedded. -/
inductive NotificationMessage where
  | identityInserted (context : IdentityContext)
  | identityUpdated (context : IdentityContext)
  | fieldVerified (context : IdentityContext) (field : IdentityFieldValue)
  | fieldVerificationFailed (context : IdentityContext) (field : IdentityFieldValue)
  | secondFieldVerified (context : IdentityContext) (field : IdentityFieldValue)
  | secondFieldVerificationFailed (context : IdentityContext) (field : IdentityFieldValue)
  | awaitingSecondChallenge (context : IdentityContext) (field : IdentityFieldValue)
  | identityFullyVerified (context : IdentityContext)
  | judgementProvided (context : IdentityContext)
  | manuallyVerified (context : IdentityContext) (field : RawFieldName)
  | fullManualVerification (context : IdentityContext)
deriving DecidableEq

/-- `Event` from primitives.rs: an event-log record stamped with
`Timestamp::now()` at insertion time. -/
structure Event where
  timestamp : Nat
  event : NotificationMessage
deriving DecidableEq

/-- The persistent state of `Database` (database.rs): the `identities`
collection and the append-only `event_log` collection. -/
structure DbState where
  identities : List JudgementState
  events : List Event
deriving DecidableEq

/-- Mongo `update_one(filter, $set ...)`: rewrite the first document
matching `p` with `f`; the returned count is `modified_count`, which is 1
only when the update actually changed the document. -/
def updateOne (p : JudgementState → Bool) (f : JudgementState → JudgementState) :
    List JudgementState → List JudgementState × Nat
  | [] => ([], 0)
  | d :: rest =>
    if p d then
      (f d :: rest, if f d = d then 0 else 1)
    else
      let r := updateOne p f rest
      (d :: r.1, r.2)

/-- Mongo `update_many(filter, $set ...)`: rewrite every document matching
`p` with `f`, counting the documents actually changed. -/
def updateMany (p : JudgementState → Bool) (f : JudgementState → JudgementState) :
    List JudgementState → List JudgementState × Nat
  | [] => ([], 0)
  | d :: rest =>
    let r := updateMany p f rest
    if p d then
      (f d :: r.1, if f d = d then r.2 else r.2 + 1)
    else
      (d :: r.1, r.2)

/-- Mongo positional `$` update on the `fields` array: rewrite the first
array element matching `p` with `f`. -/
def setFirstWhere (p : IdentityField → Bool) (f : IdentityField → IdentityField) :
    List IdentityField → List IdentityField
  | [] => []
  | x :: rest => if p x then f x :: rest else x :: setFirstWhere p f rest

/-- Rust `str::contains`: `needle` occurs in `hay` as a substring. -/
def strContains (hay needle : String) : Bool :=
  (List.range (hay.data.length + 1)).any (fun i => needle.data.isPrefixOf (hay.data.drop i))

/-- Rust `str::trim` (strip leading and trailing whitespace), implemented
over the character list. -/
def trimString (s : String) : String :=
  String.mk (((s.data.dropWhile Char.isWhitespace).reverse.dropWhile
    Char.isWhitespace).reverse)

/-- `ExpectedMessageBlanked` from primitives.rs: the `value` field is
redacted (commented out in the source), only `is_verified` remains. -/
structure ExpectedMessageBlanked where
  is_verified : Bool
deriving DecidableEq

/-- `ChallengeTypeBlanked` from primitives.rs. -/
inductive ChallengeTypeBlanked where
  | expectedMessage (expected : ExpectedMessage) (second : Option ExpectedMessageBlanked)
  | displayNameCheck (passed : Bool) (violations : List DisplayNameEntry)
  | unsupported (is_verified : Option Bool)
deriving DecidableEq

/-- `IdentityFieldBlanked` from primitives.rs. -/
structure IdentityFieldBlanked where
  value : IdentityFieldValue
  challenge : ChallengeTypeBlanked
  failed_attempts : Int
deriving DecidableEq

/-- `JudgementStateBlanked` from primitives.rs: no `issue_judgement_at`
field. -/
structure JudgementStateBlanked where
  context : IdentityContext
  is_fully_verified : Bool
  inserted_timestamp : Nat
  completion_timestamp : Option Nat
  judgement_submitted : Bool
  fields : List IdentityFieldBlanked
deriving DecidableEq

/-- The challenge conversion inside `impl From<JudgementState> for
JudgementStateBlanked` (primitives.rs lines 257-274). -/
def blankChallenge : ChallengeType → ChallengeTypeBlanked
  | .expectedMessage expected second =>
    .expectedMessage expected (second.map (fun s => { is_verified := s.is_verified }))
  | .displayNameCheck passed violations => .displayNameCheck passed violations
  | .unsupported iv => .unsupported iv

/-- The per-field conversion inside `impl From<JudgementState> for
JudgementStateBlanked` (primitives.rs lines 255-276). -/
def blankField (f : IdentityField) : IdentityFieldBlanked :=
  { value := f.value
    challenge := blankChallenge f.challenge
    failed_attempts := f.failed_attempts }

/-- `impl From<JudgementState> for JudgementStateBlanked`
(primitives.rs lines 244-280). -/
def JudgementState.blanked (s : JudgementState) : JudgementStateBlanked :=
  { context := s.context
    is_fully_verified := s.is_fully_verified
    inserted_timestamp := s.inserted_timestamp
    completion_timestamp := s.completion_timestamp
    judgement_submitted := s.judgement_submitted
    fields := s.fields.map blankField }

/-- `Database::insert_event` (database.rs lines 800-807): append
`Event { timestamp: now, event }` to the event log. -/
def DbState.insertEvent (db : DbState) (now : Nat) (m : NotificationMessage) : DbState :=
  { db with events := db.events ++ [⟨now, m⟩] }

/-- The filter of the completion CAS in `process_fully_verified`
(database.rs lines 367-370): `context` equals and `is_fully_verified` is
`false`. -/
def casGuard (ctx : IdentityContext) (d : JudgementState) : Bool :=
  decide (d.context = ctx) && !d.is_fully_verified

/-- The `$set` of the completion CAS in `process_fully_verified`
(database.rs lines 371-377). -/
def casSet (now offset : Nat) (d : JudgementState) : JudgementState :=
  { d with
    is_fully_verified := true
    completion_timestamp := some now
    issue_judgement_at := some (now + offset) }

/-- The filter of the reset CAS in `process_fully_verified`
(database.rs lines 392-395): `context` equals and `is_fully_verified` is
`true`. -/
def resetGuard (ctx : IdentityContext) (d : JudgementState) : Bool :=
  decide (d.context = ctx) && d.is_fully_verified

/-- The `$set` of the reset CAS in `process_fully_verified`
(database.rs lines 396-401). -/
def resetSet (d : JudgementState) : JudgementState :=
  { d with is_fully_verified := false, judgement_submitted := false }

/-- `Database::process_fully_verified` (database.rs lines 354-408).
`now` stands for `Timestamp::now()`; `offset` for
`thread_rng().gen_range(30..300)` (so the caller supplies
`30 <= offset < 300`); `issue_judgement_at` becomes `now + offset`
(`Timestamp::with_offset(offset)`). -/
def process_fully_verified (db : DbState) (state : JudgementState) (now offset : Nat) :
    DbState :=
  if state.check_full_verification then
    let r := updateOne (casGuard state.context) (casSet now offset) db.identities
    if r.2 > 0 then
      (DbState.mk r.1 db.events).insertEvent now (.identityFullyVerified state.context)
    else
      { db with identities := r.1 }
  else
    let r := updateOne (resetGuard state.context) resetSet db.identities
    { db with identities := r.1 }

/-- `Database::add_judgement_request` (database.rs lines 56-129), the
upsert of a judgement request.  Returns the new state and the `Ok(bool)`
result (`false` = unchanged). -/
def add_judgement_request (db : DbState) (request : JudgementState) (now offset : Nat) :
    DbState × Bool :=
  match db.identities.find? (fun d => decide (d.context = request.context)) with
  | some current =>
    let to_add := request.fields.map (fun new_field =>
      match current.fields.find? (fun cf => decide (cf.value = new_field.value)) with
      | some current_field => current_field
      | none => new_field)
    let has_changed := request.fields.any (fun new_field =>
      (current.fields.find? (fun cf => decide (cf.value = new_field.value))).isNone)
    if !has_changed && request.fields.length == current.fields.length then
      (db, false)
    else
      let current2 := { current with fields := to_add }
      let r := updateOne (fun d => decide (d.context = request.context))
        (fun d => { d with fields := to_add }) db.identities
      let db1 := (DbState.mk r.1 db.events).insertEvent now
        (.identityUpdated request.context)
      (process_fully_verified db1 current2 now offset, true)
  | none =>
    ({ db with identities := db.identities ++ [request] }, true)

/-- Replace the `fields` array of a document (the effect of a `$set` /
positional update on `fields`). -/
def JudgementState.setFields (d : JudgementState) (fs : List IdentityField) :
    JudgementState :=
  { d with fields := fs }

/-- The in-memory mutation `expected.set_verified()` performed by
`ExpectedMessage::verify_message` on success, and the `$set` of
`fields.$.challenge.content.expected.is_verified` (database.rs lines
286-298).  A Mongo `$set` of that path on a field whose challenge is not
`ExpectedMessage` is modelled as a no-op (unreachable in the flow). -/
def setExpectedVerified (f : IdentityField) : IdentityField :=
  match f.challenge with
  | .expectedMessage e s =>
    { f with challenge := .expectedMessage { e with is_verified := true } s }
  | _ => f

/-- The `$inc` of `fields.$.failed_attempts` (database.rs lines 317-329). -/
def incFailedAttempts (f : IdentityField) : IdentityField :=
  { f with failed_attempts := f.failed_attempts + 1 }

/-- The query `{ context, "fields.value": message.origin }` of the two
field updates inside `verify_message` (database.rs lines 287-290 and
318-321). -/
def originFieldGuard (ctx : IdentityContext) (origin : ExternalMessageType)
    (d : JudgementState) : Bool :=
  decide (d.context = ctx) && d.fields.any (fun f => matches_origin f.value origin)

/-- The body of the `while let` loop of `Database::verify_message`
(database.rs lines 258-349) for one cursor document `s` (a snapshot of a
document whose fields match the message origin). -/
def verify_message_step (db : DbState) (s : JudgementState) (msg : ExternalMessage)
    (now offset : Nat) : Except String DbState :=
  match s.fields.find? (fun f => matches_origin f.value msg.origin) with
  | none => .ok db
  | some field_state =>
    let context := s.context
    let field_value := field_state.value
    if field_state.challenge.is_verified then
      .ok (process_fully_verified db s now offset)
    else
      match field_state.challenge with
      | .expectedMessage expected second =>
        if expected.is_verified then
          .ok (process_fully_verified db s now offset)
        else if msg.values.any (fun v => strContains v expected.value) then
          let setv := fun (d : JudgementState) =>
            d.setFields (setFirstWhere (fun f => matches_origin f.value msg.origin)
              setExpectedVerified d.fields)
          let r := updateOne (originFieldGuard context msg.origin) setv db.identities
          let db1 := (DbState.mk r.1 db.events).insertEvent now
            (.fieldVerified context field_value)
          let db2 := if second.isSome then
              db1.insertEvent now (.awaitingSecondChallenge context field_value)
            else db1
          let s2 := s.setFields (setFirstWhere (fun f => matches_origin f.value msg.origin)
            setExpectedVerified s.fields)
          .ok (process_fully_verified db2 s2 now offset)
        else
          let inc := fun (d : JudgementState) =>
            d.setFields (setFirstWhere (fun f => matches_origin f.value msg.origin)
              incFailedAttempts d.fields)
          let r := updateMany (originFieldGuard context msg.origin) inc db.identities
          let db1 := (DbState.mk r.1 db.events).insertEvent now
            (.fieldVerificationFailed context field_value)
          .ok (process_fully_verified db1 s now offset)
      | _ => .error "Invalid challenge type when verifying message. This is a bug"

/-- `Database::verify_message` (database.rs lines 244-352).  The cursor of
`find({"fields.value": message.origin})` yields the snapshot of every
document having a field matching the origin; each is processed in turn
against the evolving state. -/
def verify_message (db : DbState) (msg : ExternalMessage) (now offset : Nat) :
    Except String DbState :=
  (db.identities.filter
      (fun d => d.fields.any (fun f => matches_origin f.value msg.origin))).foldl
    (fun acc s =>
      match acc with
      | .error e => .error e
      | .ok cur => verify_message_step cur s msg now offset)
    (.ok db)

/-- `VerifyChallenge` from api.rs (not under src/).  Modelled from the
spec: inputs of the secondary challenge are
`{ entry: IdentityFieldValue, challenge: string }`. -/
structure VerifyChallenge where
  entry : IdentityFieldValue
  challenge : String
deriving DecidableEq

/-- The in-memory mutation `second.set_verified()` and the `$set` of
`fields.$.challenge.content.second.is_verified` (database.rs lines
451-466).  On a challenge without a second message the path-set is
modelled as a no-op (unreachable in the flow). -/
def setSecondVerified (f : IdentityField) : IdentityField :=
  match f.challenge with
  | .expectedMessage e (some s2) =>
    { f with challenge := .expectedMessage e (some { s2 with is_verified := true }) }
  | _ => f

/-- The query clause `"fields.challenge.content.second.value": request.challenge`
of the update in `verify_second_challenge` (database.rs line 457). -/
def secondValueIs (f : IdentityField) (c : String) : Bool :=
  match f.challenge with
  | .expectedMessage _ (some s2) => decide (s2.value = c)
  | _ => false

/-- The body of the `while let` loop of `Database::verify_second_challenge`
(database.rs lines 427-488) for one cursor document `s`; `challenge` is
the trimmed challenge string and the accumulator carries the evolving
state and the `verified` flag.  The `panic!` on a non-`ExpectedMessage`
challenge is modelled as an error.  The Mongo positional `$` of the
update (whose filter has two separate array clauses, database.rs lines
455-458) is modelled as targeting the first array element matching the
last clause (`second.value == challenge`). -/
def verify_second_challenge_step (acc : DbState × Bool) (s : JudgementState)
    (entry : IdentityFieldValue) (challenge : String) (now offset : Nat) :
    Except String (DbState × Bool) :=
  let db := acc.1
  let verified := acc.2
  match s.fields.find? (fun f => decide (f.value = entry)) with
  | none => .ok (db, verified)
  | some field_state =>
    let context := s.context
    let field_value := field_state.value
    match field_state.challenge with
    | .expectedMessage _ none => .ok (db, verified)
    | .expectedMessage _ (some second) =>
      if strContains challenge second.value then
        let s2 := s.setFields (setFirstWhere (fun f => decide (f.value = entry))
          setSecondVerified s.fields)
        let r := updateOne
          (fun d => d.fields.any (fun f => decide (f.value = entry)) &&
            d.fields.any (fun f => secondValueIs f challenge))
          (fun d => d.setFields (setFirstWhere (fun f => secondValueIs f challenge)
            setSecondVerified d.fields))
          db.identities
        let db1 := (DbState.mk r.1 db.events).insertEvent now
          (.secondFieldVerified context field_value)
        .ok (process_fully_verified db1 s2 now offset, true)
      else
        let db1 := db.insertEvent now (.secondFieldVerificationFailed context field_value)
        .ok (process_fully_verified db1 s now offset, verified)
    | _ => .error "Invalid challenge type when verifying message"

/-- `Database::verify_second_challenge` (database.rs lines 409-491).
Returns the evolving state and the `verified` flag. -/
def verify_second_challenge (db : DbState) (request : VerifyChallenge) (now offset : Nat) :
    Except String (DbState × Bool) :=
  let challenge := trimString request.challenge
  (db.identities.filter
      (fun d => d.fields.any (fun f => decide (f.value = request.entry)))).foldl
    (fun acc s =>
      match acc with
      | .error e => .error e
      | .ok cur => verify_second_challenge_step cur s request.entry challenge now offset)
    (.ok (db, false))

/-- The per-field `$set` of `verify_manually` (database.rs lines 159-198):
Twitter/Matrix set `expected.is_verified`; Email sets both
`expected.is_verified` and `second.is_verified`; DisplayName sets
`passed`; LegalName/Web set the `Unsupported` flag.  A path-set on a
mismatched challenge variant is modelled as a no-op. -/
def applyManualSet (field : RawFieldName) (f : IdentityField) : IdentityField :=
  match field, f.challenge with
  | .twitter, .expectedMessage e s =>
    { f with challenge := .expectedMessage { e with is_verified := true } s }
  | .matrix, .expectedMessage e s =>
    { f with challenge := .expectedMessage { e with is_verified := true } s }
  | .email, .expectedMessage e s =>
    let s2 := s.map (fun m => { m with is_verified := true })
    { f with challenge := .expectedMessage { e with is_verified := true } s2 }
  | .displayName, .displayNameCheck _ violations =>
    { f with challenge := .displayNameCheck true violations }
  | .legalName, .unsupported _ => { f with challenge := .unsupported (some true) }
  | .web, .unsupported _ => { f with challenge := .unsupported (some true) }
  | _, _ => f

/-- The query `{ context, "fields.value.type": field.to_string() }` of the
update in `verify_manually` (database.rs lines 203-206). -/
def manualGuard (ctx : IdentityContext) (field : RawFieldName) (d : JudgementState) : Bool :=
  decide (d.context = ctx) && d.fields.any (fun f => f.value.typeTag == field.fieldType)

/-- The document update of `verify_manually`: positional `$` on the first
field whose `value.type` matches. -/
def manualApply (field : RawFieldName) (d : JudgementState) : JudgementState :=
  d.setFields (setFirstWhere (fun f => f.value.typeTag == field.fieldType)
    (applyManualSet field) d.fields)

/-- `Database::verify_manually` (database.rs lines 149-243).  Returns
`Ok(None)` when nothing was modified (or the state vanished before the
full check), `Ok(Some(()))` on success, and an error for the abstract
`All` name. -/
def verify_manually (db : DbState) (context : IdentityContext) (field : RawFieldName)
    (full_check : Bool) (now offset : Nat) : Except String (DbState × Option Unit) :=
  if field = RawFieldName.all then
    .error "field name all is abstract and cannot be verified individually"
  else
    let r := updateOne (manualGuard context field) (manualApply field) db.identities
    let db1 := { db with identities := r.1 }
    if r.2 == 0 then
      .ok (db1, none)
    else if full_check then
      let db2 := db1.insertEvent now (.manuallyVerified context field)
      match db2.identities.find? (fun d => decide (d.context = context)) with
      | some state => .ok (process_fully_verified db2 state now offset, some ())
      | none => .ok (db2, none)
    else
      .ok (db1, some ())

/-- The `$set` of the update in `full_manual_verification` (database.rs
lines 626-641). -/
def fullSet (now offset : Nat) (d : JudgementState) : JudgementState :=
  { d with
    is_fully_verified := true
    judgement_submitted := false
    completion_timestamp := some now
    issue_judgement_at := some (now + offset) }

/-- `Database::full_manual_verification` (database.rs lines 616-674).
`offset` stands for `thread_rng().gen_range(30..300)`.  On
`modified_count == 1` each possible field kind is manually verified with
`full_check = false` (results discarded), then the
`FullManualVerification` event is appended; returns whether the state was
modified. -/
def full_manual_verification (db : DbState) (context : IdentityContext) (now offset : Nat) :
    Except String (DbState × Bool) := do
  let r := updateOne (fun d => decide (d.context = context)) (fullSet now offset)
    db.identities
  let db1 : DbState := { db with identities := r.1 }
  if r.2 == 1 then
    let (db2, _) ← verify_manually db1 context .legalName false now offset
    let (db3, _) ← verify_manually db2 context .displayName false now offset
    let (db4, _) ← verify_manually db3 context .email false now offset
    let (db5, _) ← verify_manually db4 context .web false now offset
    let (db6, _) ← verify_manually db5 context .twitter false now offset
    let (db7, _) ← verify_manually db6 context .matrix false now offset
    pure (db7.insertEvent now (.fullManualVerification context), true)
  else
    pure (db1, false)

/-- `Database::set_judged` (database.rs lines 675-702). -/
def set_judged (db : DbState) (context : IdentityContext) (now : Nat) : DbState :=
  let r := updateOne
    (fun d => decide (d.context = context) && !d.judgement_submitted)
    (fun d => { d with judgement_submitted := true }) db.identities
  let db1 := { db with identities := r.1 }
  if r.2 == 1 then db1.insertEvent now (.judgementProvided context) else db1

/-- The filter of `process_dangling_judgement_states` (database.rs lines
818-824): fully verified, not submitted, and `completion_timestamp` set
and below `now - DANGLING_THRESHOLD`.  (A document whose
`completion_timestamp` is null never satisfies the numeric `$lt`.) -/
def danglingGuard (now : Nat) (d : JudgementState) : Bool :=
  d.is_fully_verified && !d.judgement_submitted &&
    (match d.completion_timestamp with
     | some t => decide (t < now - 3600)
     | none => false)

/-- `Database::process_dangling_judgement_states` (database.rs lines
811-840): `update_many` setting `judgement_submitted = true`; no event is
inserted (the count only feeds a debug log). -/
def process_dangling_judgement_states (db : DbState) (now : Nat) : DbState :=
  let r := updateMany (danglingGuard now) (fun d => { d with judgement_submitted := true })
    db.identities
  { db with identities := r.1 }

/-- The `while let` loop of `Database::fetch_events` (database.rs lines
553-560): push each event's message and track the maximum timestamp. -/
def fetch_events_loop : Nat → List Event → List NotificationMessage × Nat
  | after, [] => ([], after)
  | after, e :: rest =>
    let r := fetch_events_loop (max after e.timestamp) rest
    (e.event :: r.1, r.2)

/-- `Database::fetch_events` (database.rs lines 536-563): all events with
`timestamp > after`, and the running maximum starting from `after`. -/
def fetch_events (log : List Event) (after : Nat) : List NotificationMessage × Nat :=
  fetch_events_loop after (log.filter (fun e => decide (after < e.timestamp)))

/-- One successful iteration of the notifier loop (notifier.rs lines
15-41): `*event_counter = new_counter` after `fetch_events`. -/
def notifier_step (log : List Event) (event_counter : Nat) : Nat :=
  (fetch_events log event_counter).2

/-- `Response` from adapters/admin.rs (payload types simplified to the
embedded equivalents; `ChainAddress` is a `String`). -/
inductive Response where
  | status (state : JudgementStateBlanked)
  | verified (addr : String) (fields : List RawFieldName)
  | unknownCommand
  | identityNotFound
  | invalidSyntax (input : Option String)
  | internalError
  | help
deriving DecidableEq

/-- The normalization inside `impl FromStr for RawFieldName`
(adapters/admin.rs line 142): trim, strip every `-` and `_`, lowercase
(implemented over the character list; `replace('-', "")` removes every
occurrence of the character). -/
def normalize_token (s : String) : String :=
  String.mk ((((trimString s).data.filter
    (fun c => !(c == '-') && !(c == '_'))).map Char.toLower))

/-- `impl FromStr for RawFieldName` (adapters/admin.rs lines 137-156).
The snapshot's parser has no arm for `all`; an unmatched token yields
`InvalidSyntax` carrying the normalized token. -/
def RawFieldName.fromStr (s : String) : Except Response RawFieldName :=
  let t := normalize_token s
  if t == "legalname" then .ok .legalName
  else if t == "displayname" then .ok .displayName
  else if t == "email" then .ok .email
  else if t == "web" then .ok .web
  else if t == "twitter" then .ok .twitter
  else if t == "matrix" then .ok .matrix
  else .error (.invalidSyntax (some t))

/-- Rust `str::replace("  ", " ")` (adapters/admin.rs line 20): replace
non-overlapping double spaces left to right, over the character list. -/
def collapseDoubleSpace : List Char → List Char
  | [] => []
  | [c] => [c]
  | c1 :: c2 :: rest =>
    if c1 = ' ' && c2 = ' ' then ' ' :: collapseDoubleSpace rest
    else c1 :: collapseDoubleSpace (c2 :: rest)

/-- Rust `str::split(' ')` over the character list: the pieces between
space characters, keeping empty pieces (the empty input yields one empty
piece, as in Rust). -/
def splitSpaces : List Char → List (List Char)
  | [] => [[]]
  | c :: rest =>
    let r := splitSpaces rest
    if c = ' ' then [] :: r
    else (c :: r.headD []) :: r.tail

/-- `Command` from adapters/admin.rs (`ChainAddress` embedded as
`String`). -/
inductive Command where
  | status (addr : String)
  | verify (addr : String) (fields : List RawFieldName)
  | help
deriving DecidableEq

/-- `parts[1..].iter().map(RawFieldName::from_str).collect::<Result<Vec<_>>>()`
(adapters/admin.rs lines 37-40): parse each field token left to right,
short-circuiting on the first error. -/
def collectFields : List (List Char) → Except Response (List RawFieldName)
  | [] => .ok []
  | p :: rest =>
    match RawFieldName.fromStr (String.mk p) with
    | .error e => .error e
    | .ok f =>
      match collectFields rest with
      | .error e => .error e
      | .ok fs => .ok (f :: fs)

/-- `impl FromStr for Command` (adapters/admin.rs lines 15-54): the admin
dispatch's parser.  Its `verify` arm parses every field token with
`RawFieldName::from_str`, which has no arm for `all`. -/
def Command.fromStr (s : String) : Except Response Command :=
  let chars := collapseDoubleSpace (trimString s).data
  if ("status".data).isPrefixOf chars then
    let parts := (splitSpaces chars).drop 1
    if parts.length ≠ 1 then .error .unknownCommand
    else .ok (.status (String.mk (parts.headD [])))
  else if ("verify".data).isPrefixOf chars then
    let parts := (splitSpaces chars).drop 1
    if parts.length < 2 then .error .unknownCommand
    else
      match collectFields (parts.drop 1) with
      | .error e => .error e
      | .ok fs => .ok (.verify (String.mk (parts.headD [])) fs)
  else if ("help".data).isPrefixOf chars then
    if (splitSpaces chars).length > 1 then .error .unknownCommand
    else .ok .help
  else .error .unknownCommand

section Lemmas

variable {p : JudgementState → Bool} {f : JudgementState → JudgementState}

theorem updateOne_of_forall_false {l : List JudgementState}
    (h : ∀ d ∈ l, p d = false) : updateOne p f l = (l, 0) := by
  induction l with
  | nil => rfl
  | cons d rest ih =>
    have hd := h d (List.mem_cons_self d rest)
    have hr := ih (fun x hx => h x (List.mem_cons_of_mem d hx))
    simp [updateOne, hd, hr]

theorem updateOne_append {l1 l2 : List JudgementState} {d : JudgementState}
    (h1 : ∀ x ∈ l1, p x = false) (h2 : p d = true) :
    updateOne p f (l1 ++ d :: l2) =
      (l1 ++ f d :: l2, if f d = d then 0 else 1) := by
  induction l1 with
  | nil => simp [updateOne, h2]
  | cons a rest ih =>
    have ha := h1 a (List.mem_cons_self a rest)
    have hr := ih (fun x hx => h1 x (List.mem_cons_of_mem a hx))
    simp [updateOne, ha, hr]

theorem find?_append_cons {l1 l2 : List IdentityField} {d : IdentityField}
    {q : IdentityField → Bool}
    (h1 : ∀ x ∈ l1, q x = false) (h2 : q d = true) :
    (l1 ++ d :: l2).find? q = some d := by
  induction l1 with
  | nil => simp [List.find?, h2]
  | cons a rest ih =>
    have ha := h1 a (List.mem_cons_self a rest)
    have hr := ih (fun x hx => h1 x (List.mem_cons_of_mem a hx))
    simp [List.find?, ha, hr]

theorem find?_state_append_cons {l1 l2 : List JudgementState} {d : JudgementState}
    (h1 : ∀ x ∈ l1, p x = false) (h2 : p d = true) :
    (l1 ++ d :: l2).find? p = some d := by
  induction l1 with
  | nil => simp [List.find?, h2]
  | cons a rest ih =>
    have ha := h1 a (List.mem_cons_self a rest)
    have hr := ih (fun x hx => h1 x (List.mem_cons_of_mem a hx))
    simp [List.find?, ha, hr]

theorem find?_state_decomp {l : List JudgementState} {d : JudgementState}
    (h : l.find? p = some d) :
    ∃ l1 l2, l = l1 ++ d :: l2 ∧ (∀ x ∈ l1, p x = false) ∧ p d = true := by
  induction l with
  | nil => simp [List.find?] at h
  | cons a rest ih =>
    by_cases ha : p a = true
    · refine ⟨[], rest, ?_, by simp, ?_⟩
      · have : some a = some d := by simpa [List.find?, ha] using h
        simp [Option.some_inj.mp this]
      · have : some a = some d := by simpa [List.find?, ha] using h
        rw [← Option.some_inj.mp this]; exact ha
    · have ha2 : p a = false := by simpa using ha
      have h2 : rest.find? p = some d := by simpa [List.find?, ha2] using h
      obtain ⟨l1, l2, heq, hall, hp⟩ := ih h2
      exact ⟨a :: l1, l2, by simp [heq], by
        intro x hx
        rcases List.mem_cons.mp hx with rfl | hx2
        · exact ha2
        · exact hall x hx2, hp⟩

theorem updateOne_mem {l : List JudgementState} {d2 : JudgementState}
    (h : d2 ∈ (updateOne p f l).1) :
    d2 ∈ l ∨ ∃ d ∈ l, p d = true ∧ d2 = f d := by
  induction l with
  | nil => simp [updateOne] at h
  | cons a rest ih =>
    by_cases ha : p a = true
    · simp only [updateOne, ha, if_true] at h
      rcases List.mem_cons.mp h with rfl | h2
      · exact Or.inr ⟨a, List.mem_cons_self a rest, ha, rfl⟩
      · exact Or.inl (List.mem_cons_of_mem a h2)
    · have ha2 : p a = false := by simpa using ha
      simp only [updateOne, ha2, Bool.false_eq_true, if_false] at h
      rcases List.mem_cons.mp h with rfl | h2
      · exact Or.inl (List.mem_cons_self d2 rest)
      · rcases ih h2 with h3 | ⟨d, hd, hp, he⟩
        · exact Or.inl (List.mem_cons_of_mem a h3)
        · exact Or.inr ⟨d, List.mem_cons_of_mem a hd, hp, he⟩

theorem updateOne_fst_map {l : List JudgementState} {g : JudgementState → α}
    (hg : ∀ d, g (f d) = g d) :
    ((updateOne p f l).1).map g = l.map g := by
  induction l with
  | nil => rfl
  | cons a rest ih =>
    by_cases ha : p a = true
    · simp [updateOne, ha, hg]
    · have ha2 : p a = false := by simpa using ha
      simp [updateOne, ha2, ih]

theorem updateMany_fst {l : List JudgementState} :
    (updateMany p f l).1 = l.map (fun d => if p d = true then f d else d) := by
  induction l with
  | nil => rfl
  | cons a rest ih =>
    by_cases ha : p a = true
    · simp [updateMany, ha, ih]
    · have ha2 : p a = false := by simpa using ha
      simp [updateMany, ha2, ih]

theorem setFirstWhere_append {l1 l2 : List IdentityField} {d : IdentityField}
    {q : IdentityField → Bool} {g : IdentityField → IdentityField}
    (h1 : ∀ x ∈ l1, q x = false) (h2 : q d = true) :
    setFirstWhere q g (l1 ++ d :: l2) = l1 ++ g d :: l2 := by
  induction l1 with
  | nil => simp [setFirstWhere, h2]
  | cons a rest ih =>
    have ha := h1 a (List.mem_cons_self a rest)
    have hr := ih (fun x hx => h1 x (List.mem_cons_of_mem a hx))
    simp [setFirstWhere, ha, hr]

theorem fetch_events_loop_fst (a : Nat) (l : List Event) :
    (fetch_events_loop a l).1 = l.map (fun e => e.event) := by
  induction l generalizing a with
  | nil => rfl
  | cons e rest ih => simp [fetch_events_loop, ih]

theorem fetch_events_loop_snd (a : Nat) (l : List Event) :
    (fetch_events_loop a l).2 = l.foldl (fun x e => max x e.timestamp) a := by
  induction l generalizing a with
  | nil => rfl
  | cons e rest ih => simp [fetch_events_loop, ih, List.foldl]

theorem le_foldl_max (a : Nat) (l : List Event) :
    a ≤ l.foldl (fun x e => max x e.timestamp) a := by
  induction l generalizing a with
  | nil => exact Nat.le_refl a
  | cons e rest ih =>
    exact Nat.le_trans (Nat.le_max_left a e.timestamp) (ih (max a e.timestamp))

theorem mem_le_foldl_max {a : Nat} {l : List Event} {e : Event} (h : e ∈ l) :
    e.timestamp ≤ l.foldl (fun x e => max x e.timestamp) a := by
  induction l generalizing a with
  | nil => simp at h
  | cons x rest ih =>
    rcases List.mem_cons.mp h with rfl | h2
    · exact Nat.le_trans (Nat.le_max_right a e.timestamp) (le_foldl_max _ rest)
    · exact ih h2

theorem foldl_max_cases (a : Nat) (l : List Event) :
    l.foldl (fun x e => max x e.timestamp) a = a ∨
      ∃ e ∈ l, l.foldl (fun x e => max x e.timestamp) a = e.timestamp := by
  induction l generalizing a with
  | nil => exact Or.inl rfl
  | cons x rest ih =>
    rcases ih (max a x.timestamp) with h | ⟨e, he, h⟩
    · rcases max_choice a x.timestamp with hm | hm
      · exact Or.inl (by simpa [List.foldl, hm] using h)
      · exact Or.inr ⟨x, List.mem_cons_self x rest, by simpa [List.foldl, hm] using h⟩
    · exact Or.inr ⟨e, List.mem_cons_of_mem x he, by simpa [List.foldl] using h⟩

end Lemmas

/-- C3: `ChallengeType::is_verified` returns true iff: for
`ExpectedMessage`, the expected message is verified and the second is
absent or verified; for `DisplayNameCheck`, `passed` holds; for
`Unsupported`, the flag is `Some(true)` (both `None` and `Some(false)`
yield false). -/
theorem claim_C3_is_verified_characterization (c : ChallengeType) :
    (c.is_verified = true ↔
      ((∃ e sec, c = .expectedMessage e sec ∧ e.is_verified = true ∧
          (sec = none ∨ ∃ e2, sec = some e2 ∧ e2.is_verified = true)) ∨
        (∃ v, c = .displayNameCheck true v) ∨
        c = .unsupported (some true))) ∧
      (ChallengeType.unsupported none).is_verified = false ∧
      (ChallengeType.unsupported (some false)).is_verified = false := by
  refine ⟨?_, rfl, rfl⟩
  cases c with
  | expectedMessage e sec =>
    cases sec with
    | none =>
      constructor
      · intro h
        exact Or.inl ⟨e, none, rfl, h, Or.inl rfl⟩
      · rintro (⟨e2, sec2, heq, h1, _⟩ | ⟨v, hv⟩ | h)
        · injection heq with he hs
          subst he
          exact h1
        · cases hv
        · cases h
    | some s2 =>
      simp only [ChallengeType.is_verified, Bool.and_eq_true]
      constructor
      · rintro ⟨h1, h2⟩
        exact Or.inl ⟨e, some s2, rfl, h1, Or.inr ⟨s2, rfl, h2⟩⟩
      · rintro (⟨e2, sec2, heq, h1, h2⟩ | ⟨v, hv⟩ | h)
        · cases heq
          rcases h2 with h2 | ⟨e3, he3, h3⟩
          · cases h2
          · cases he3
            exact ⟨h1, h3⟩
        · cases hv
        · cases h
  | displayNameCheck passed v =>
    cases passed <;> simp [ChallengeType.is_verified]
  | unsupported o =>
    rcases o with _ | b
    · simp [ChallengeType.is_verified]
    · cases b <;> simp [ChallengeType.is_verified, Option.getD]

/-- C6: the blanked projection keeps `context`, `is_fully_verified`,
`inserted_timestamp`, `completion_timestamp`, `judgement_submitted` and
every field's `value` and `failed_attempts`; it maps an `ExpectedMessage`
challenge keeping the primary message and reducing a present second
message to just its `is_verified` flag (the secondary nonce value is
redacted); it keeps the other challenge variants; and it does not depend
on `issue_judgement_at` (which `JudgementStateBlanked` omits). -/
theorem claim_C6_blanked_projection (s : JudgementState) (t : Option Nat)
    (fld : IdentityField) (e : ExpectedMessage) (sec : Option ExpectedMessage)
    (pb : Bool) (vio : List DisplayNameEntry) (o : Option Bool) :
    (s.blanked.context = s.context ∧
      s.blanked.is_fully_verified = s.is_fully_verified ∧
      s.blanked.inserted_timestamp = s.inserted_timestamp ∧
      s.blanked.completion_timestamp = s.completion_timestamp ∧
      s.blanked.judgement_submitted = s.judgement_submitted ∧
      s.blanked.fields = s.fields.map blankField) ∧
      ((blankField fld).value = fld.value ∧
        (blankField fld).failed_attempts = fld.failed_attempts ∧
        (blankField fld).challenge = blankChallenge fld.challenge) ∧
      (blankChallenge (.expectedMessage e sec) =
          .expectedMessage e (sec.map (fun m => { is_verified := m.is_verified })) ∧
        blankChallenge (.displayNameCheck pb vio) = .displayNameCheck pb vio ∧
        blankChallenge (.unsupported o) = .unsupported o) ∧
      JudgementState.blanked { s with issue_judgement_at := t } = s.blanked :=
  ⟨⟨rfl, rfl, rfl, rfl, rfl, rfl⟩, ⟨rfl, rfl, rfl⟩, ⟨rfl, rfl, rfl⟩, rfl⟩

/-- C10: `fetch_events(after)` returns exactly the messages of the logged
events with timestamp strictly greater than `after`; the returned counter
is the running maximum of `after` and the returned events' timestamps,
hence at least `after` and at least every returned timestamp, and it is
either `after` itself or one of the returned timestamps; consequently the
notifier cursor assignment is non-decreasing. -/
theorem claim_C10_fetch_events_cursor (log : List Event) (after : Nat) :
    (fetch_events log after).1 =
        (log.filter (fun e => decide (after < e.timestamp))).map (fun e => e.event) ∧
      (∀ m ∈ (fetch_events log after).1,
        ∃ e ∈ log, after < e.timestamp ∧ e.event = m) ∧
      after ≤ (fetch_events log after).2 ∧
      (∀ e ∈ log, after < e.timestamp → e.timestamp ≤ (fetch_events log after).2) ∧
      ((fetch_events log after).2 = after ∨
        ∃ e ∈ log, after < e.timestamp ∧ (fetch_events log after).2 = e.timestamp) ∧
      after ≤ notifier_step log after := by
  have h1 : (fetch_events log after).1 =
      (log.filter (fun e => decide (after < e.timestamp))).map (fun e => e.event) :=
    fetch_events_loop_fst after _
  have h2 : (fetch_events log after).2 =
      (log.filter (fun e => decide (after < e.timestamp))).foldl
        (fun x e => max x e.timestamp) after :=
    fetch_events_loop_snd after _
  refine ⟨h1, ?_, ?_, ?_, ?_, ?_⟩
  · intro m hm
    rw [h1] at hm
    obtain ⟨e, he, hme⟩ := List.mem_map.mp hm
    obtain ⟨hel, het⟩ := List.mem_filter.mp he
    exact ⟨e, hel, by simpa using het, hme⟩
  · rw [h2]
    exact le_foldl_max after _
  · intro e hel het
    rw [h2]
    exact mem_le_foldl_max (List.mem_filter.mpr ⟨hel, by simpa using het⟩)
  · rw [h2]
    rcases foldl_max_cases after (log.filter (fun e => decide (after < e.timestamp))) with
      h | ⟨e, he, hv⟩
    · exact Or.inl h
    · obtain ⟨hel, het⟩ := List.mem_filter.mp he
      exact Or.inr ⟨e, hel, by simpa using het, hv⟩
  · rw [notifier_step, h2]
    exact le_foldl_max after _

/-- C8: `RawFieldName::from_str` accepts exactly the tokens that normalize
(trim, strip `-` and `_`, lowercase) to one of the six field names, and
every other token, including `all`, yields an invalid-input error carrying
the (normalized) offending token; `verify_manually` rejects the abstract
`All` name with an error.  Against the claim's last clause, the admin
dispatch present in the snapshot also rejects `all`: its `Command` parser
runs every field token through `RawFieldName::from_str`, so
`verify Alice all` fails with `InvalidSyntax (some "all")` and
`RawFieldName::All` (which database.rs line 193 presupposes reachable
from a higher level) cannot be produced by it. -/
theorem claim_C8_all_token_dispatch (s : String) (db : DbState)
    (ctx : IdentityContext) (fc : Bool) (now offset : Nat) :
    ((∃ f, RawFieldName.fromStr s = .ok f) ↔
        normalize_token s ∈
          ["legalname", "displayname", "email", "web", "twitter", "matrix"]) ∧
      ((∃ f, RawFieldName.fromStr s = .ok f) ∨
        RawFieldName.fromStr s = .error (.invalidSyntax (some (normalize_token s)))) ∧
      RawFieldName.fromStr "all" = .error (.invalidSyntax (some "all")) ∧
      Command.fromStr "verify Alice all" = .error (.invalidSyntax (some "all")) ∧
      verify_manually db ctx .all fc now offset =
        .error "field name all is abstract and cannot be verified individually" := by
  have hall : RawFieldName.fromStr "all" = .error (.invalidSyntax (some "all")) := rfl
  have hdisp : Command.fromStr "verify Alice all" =
      .error (.invalidSyntax (some "all")) := rfl
  have hvm : verify_manually db ctx .all fc now offset =
      .error "field name all is abstract and cannot be verified individually" := by
    simp [verify_manually]
  by_cases hm : normalize_token s ∈
      ["legalname", "displayname", "email", "web", "twitter", "matrix"]
  · have hok : ∃ f, RawFieldName.fromStr s = .ok f := by
      rcases (by simpa using hm :
          normalize_token s = "legalname" ∨ normalize_token s = "displayname" ∨
            normalize_token s = "email" ∨ normalize_token s = "web" ∨
            normalize_token s = "twitter" ∨ normalize_token s = "matrix") with
        h | h | h | h | h | h
      · exact ⟨.legalName, by simp [RawFieldName.fromStr, h]⟩
      · exact ⟨.displayName, by simp [RawFieldName.fromStr, h]⟩
      · exact ⟨.email, by simp [RawFieldName.fromStr, h]⟩
      · exact ⟨.web, by simp [RawFieldName.fromStr, h]⟩
      · exact ⟨.twitter, by simp [RawFieldName.fromStr, h]⟩
      · exact ⟨.matrix, by simp [RawFieldName.fromStr, h]⟩
    exact ⟨⟨fun _ => hm, fun _ => hok⟩, Or.inl hok, hall, hdisp, hvm⟩
  · have hne : ∀ x ∈ ["legalname", "displayname", "email", "web", "twitter", "matrix"],
        ¬normalize_token s = x := fun x hx he => hm (he ▸ hx)
    have h1 := hne "legalname" (by simp)
    have h2 := hne "displayname" (by simp)
    have h3 := hne "email" (by simp)
    have h4 := hne "web" (by simp)
    have h5 := hne "twitter" (by simp)
    have h6 := hne "matrix" (by simp)
    have herr : RawFieldName.fromStr s =
        .error (.invalidSyntax (some (normalize_token s))) := by
      simp [RawFieldName.fromStr, beq_iff_eq, h1, h2, h3, h4, h5, h6]
    refine ⟨⟨?_, fun hc => absurd hc hm⟩, Or.inr herr, hall, hdisp, hvm⟩
    rintro ⟨f, hf⟩
    rw [herr] at hf
    cases hf

/-- C1: when every field's challenge reports verified,
`process_fully_verified` performs the CAS guarded by
`is_fully_verified == false` setting `is_fully_verified = true`,
`completion_timestamp = now` and `issue_judgement_at = now + offset` with
`30 <= offset < 300`; any rewritten document satisfies
`completion_timestamp + 30 <= issue_judgement_at <= completion_timestamp + 300`,
the `IdentityFullyVerified` event is appended exactly when the guarded
update modified a document, and nothing happens when no document passes
the guard. -/
theorem claim_C1_completion_cas (db : DbState) (state : JudgementState) (now offset : Nat)
    (hv : state.check_full_verification = true) (h30 : 30 ≤ offset) (h300 : offset < 300) :
    (∀ d ∈ (process_fully_verified db state now offset).identities,
        d ∈ db.identities ∨
          (d.is_fully_verified = true ∧ ∃ c i, d.completion_timestamp = some c ∧
            d.issue_judgement_at = some i ∧ c + 30 ≤ i ∧ i ≤ c + 300)) ∧
      (process_fully_verified db state now offset).events =
        db.events ++
          (if 0 < (updateOne (casGuard state.context) (casSet now offset) db.identities).2
            then [{ timestamp := now, event := .identityFullyVerified state.context }]
            else []) ∧
      ((∀ d ∈ db.identities, casGuard state.context d = false) →
        process_fully_verified db state now offset = db) := by
  refine ⟨?_, ?_, ?_⟩
  · intro d hd
    have hd2 : d ∈ (updateOne (casGuard state.context) (casSet now offset) db.identities).1 := by
      by_cases hc :
          0 < (updateOne (casGuard state.context) (casSet now offset) db.identities).2
      · simpa [process_fully_verified, hv, hc, DbState.insertEvent] using hd
      · simpa [process_fully_verified, hv, hc] using hd
    rcases updateOne_mem hd2 with h | ⟨d0, _, hp, he⟩
    · exact Or.inl h
    · subst he
      exact Or.inr ⟨rfl, now, now + offset, rfl, rfl, Nat.add_le_add_left h30 now,
        Nat.add_le_add_left (Nat.le_of_lt h300) now⟩
  · by_cases hc : 0 < (updateOne (casGuard state.context) (casSet now offset) db.identities).2
    · simp [process_fully_verified, hv, hc, DbState.insertEvent]
    · simp [process_fully_verified, hv, hc]
  · intro hall
    have hu := updateOne_of_forall_false (p := casGuard state.context)
      (f := casSet now offset) hall
    simp [process_fully_verified, hv, hu]

def witCtx : IdentityContext := { address := "addr", chain := .polkadot }

def witState : JudgementState :=
  { context := witCtx
    is_fully_verified := false
    inserted_timestamp := 0
    completion_timestamp := none
    judgement_submitted := false
    issue_judgement_at := none
    fields := [] }

def witDb : DbState := { identities := [witState], events := [] }

theorem claim_C1_witness :
    witState.check_full_verification = true ∧ 30 ≤ 42 ∧ 42 < 300 ∧
      (process_fully_verified witDb witState 1000 42).events =
        witDb.events ++
          [{ timestamp := 1000, event := .identityFullyVerified witState.context }] := by
  refine ⟨by decide, by decide, by decide, ?_⟩
  have h := (claim_C1_completion_cas witDb witState 1000 42 (by decide) (by decide)
    (by decide)).2.1
  rw [h]
  decide

/-- C9: for a `JudgementState` with an empty field list,
`check_full_verification` is vacuously true, so `process_fully_verified`
takes the completion branch: a stored document for the context with
`is_fully_verified = false` is marked fully verified and the
`IdentityFullyVerified` event is appended. -/
theorem claim_C9_empty_fields_completes (db : DbState) (s : JudgementState)
    (now offset : Nat) (d : JudgementState)
    (hf : s.fields = [])
    (hd : db.identities.find? (casGuard s.context) = some d) :
    s.check_full_verification = true ∧
      (process_fully_verified db s now offset).events =
        db.events ++ [{ timestamp := now, event := .identityFullyVerified s.context }] ∧
      ∃ d2 ∈ (process_fully_verified db s now offset).identities,
        d2.context = s.context ∧ d2.is_fully_verified = true := by
  have hv : s.check_full_verification = true := by
    simp [JudgementState.check_full_verification, hf]
  obtain ⟨l1, l2, heq, hall, hp⟩ := find?_state_decomp hd
  have hp2 : d.context = s.context ∧ d.is_fully_verified = false := by
    simpa [casGuard] using hp
  have hchanged : casSet now offset d ≠ d := by
    intro he
    have hcon : (casSet now offset d).is_fully_verified = d.is_fully_verified :=
      congrArg JudgementState.is_fully_verified he
    rw [hp2.2] at hcon
    simp [casSet] at hcon
  have hup2 : updateOne (casGuard s.context) (casSet now offset) db.identities =
      (l1 ++ casSet now offset d :: l2, 1) := by
    rw [heq, updateOne_append hall hp]
    simp [hchanged]
  have hid : (process_fully_verified db s now offset).identities =
      l1 ++ casSet now offset d :: l2 := by
    simp [process_fully_verified, hv, hup2, DbState.insertEvent]
  refine ⟨hv, ?_, ?_⟩
  · simp [process_fully_verified, hv, hup2, DbState.insertEvent]
  · refine ⟨casSet now offset d, ?_, ?_, rfl⟩
    · rw [hid]
      exact List.mem_append_right _ (List.mem_cons_self _ _)
    · simpa [casSet] using hp2.1

def witState9 : JudgementState :=
  { context := { address := "nofields", chain := .kusama }
    is_fully_verified := false
    inserted_timestamp := 5
    completion_timestamp := none
    judgement_submitted := false
    issue_judgement_at := none
    fields := [] }

def witDb9 : DbState := { identities := [witState9], events := [] }

theorem claim_C9_witness :
    witState9.fields = [] ∧
      witDb9.identities.find? (casGuard witState9.context) = some witState9 ∧
      (process_fully_verified witDb9 witState9 50 31).events =
        witDb9.events ++
          [{ timestamp := 50, event := .identityFullyVerified witState9.context }] := by
  refine ⟨by decide, by decide, ?_⟩
  exact (claim_C9_empty_fields_completes witDb9 witState9 50 31 witState9 (by decide)
    (by decide)).2.1

/-- C5: the dangling pass sets `judgement_submitted = true` on exactly the
documents satisfying `is_fully_verified` and not `judgement_submitted`
with a set `completion_timestamp` below `now - 3600`, leaves every other
document and every other field untouched, and appends no event at all. -/
theorem claim_C5_dangling_reclamation (db : DbState) (now : Nat) (h : 3600 ≤ now) :
    (process_dangling_judgement_states db now).events = db.events ∧
      (process_dangling_judgement_states db now).identities =
        db.identities.map (fun d =>
          if (d.is_fully_verified && !d.judgement_submitted &&
              (match d.completion_timestamp with
               | some t => decide (t < now - 3600)
               | none => false)) = true
          then { d with judgement_submitted := true } else d) := by
  refine ⟨rfl, ?_⟩
  show (updateMany (danglingGuard now)
    (fun d => { d with judgement_submitted := true }) db.identities).1 = _
  rw [updateMany_fst]
  rfl

def witBob : JudgementState :=
  { context := { address := "bob", chain := .polkadot }
    is_fully_verified := true
    inserted_timestamp := 0
    completion_timestamp := some 6300
    judgement_submitted := false
    issue_judgement_at := some 6350
    fields := [] }

def witDb5 : DbState := { identities := [witBob], events := [] }

theorem claim_C5_witness :
    3600 ≤ 10000 ∧
      (process_dangling_judgement_states witDb5 10000).events = witDb5.events ∧
      (process_dangling_judgement_states witDb5 10000).identities =
        [{ witBob with judgement_submitted := true }] := by
  have h := claim_C5_dangling_reclamation witDb5 10000 (by decide)
  refine ⟨by decide, h.1, ?_⟩
  rw [h.2]
  decide

/-- C2: re-upserting a judgement request whose field list is equal by
value to the stored one is idempotent: `add_judgement_request` returns
`false` (unchanged), the state (so every stored field with its in-flight
challenge and counters) is untouched, and no event -- in particular no
`IdentityUpdated` -- is appended. -/
theorem claim_C2_upsert_idempotent (db : DbState) (request current : JudgementState)
    (now offset : Nat)
    (h1 : db.identities.find? (fun d => decide (d.context = request.context)) = some current)
    (h2 : request.fields.map (fun f => f.value) = current.fields.map (fun f => f.value)) :
    add_judgement_request db request now offset = (db, false) := by
  have hlen : request.fields.length = current.fields.length := by
    have := congrArg List.length h2
    simpa using this
  have hnc : ∀ nf ∈ request.fields,
      (current.fields.find? (fun cf => decide (cf.value = nf.value))).isNone = false := by
    intro nf hnf
    have hv : nf.value ∈ current.fields.map (fun f => f.value) := by
      rw [← h2]
      exact List.mem_map_of_mem _ hnf
    obtain ⟨cf, hcf, hcv⟩ := List.mem_map.mp hv
    have hsome : (current.fields.find? (fun cf => decide (cf.value = nf.value))).isSome := by
      rw [List.find?_isSome]
      exact ⟨cf, hcf, by simp [hcv]⟩
    cases hfind : current.fields.find? (fun cf => decide (cf.value = nf.value)) with
    | none => rw [hfind] at hsome; cases hsome
    | some y => rfl
  have hchanged : (request.fields.any (fun nf =>
      (current.fields.find? (fun cf => decide (cf.value = nf.value))).isNone)) = false := by
    rw [List.any_eq_false]
    intro nf hnf
    simp [hnc nf hnf]
  simp [add_judgement_request, h1, hchanged, hlen]

def witFieldCur : IdentityField :=
  { value := .email "a@b.c"
    challenge := .expectedMessage { value := "oldnonce", is_verified := true } none
    failed_attempts := 2 }

def witFieldReq : IdentityField :=
  { value := .email "a@b.c"
    challenge := .expectedMessage { value := "newnonce", is_verified := false } none
    failed_attempts := 0 }

def witCur2 : JudgementState :=
  { context := witCtx
    is_fully_verified := false
    inserted_timestamp := 0
    completion_timestamp := none
    judgement_submitted := false
    issue_judgement_at := none
    fields := [witFieldCur] }

def witReq2 : JudgementState :=
  { context := witCtx
    is_fully_verified := false
    inserted_timestamp := 9
    completion_timestamp := none
    judgement_submitted := false
    issue_judgement_at := none
    fields := [witFieldReq] }

def witDb2 : DbState := { identities := [witCur2], events := [] }

theorem claim_C2_witness :
    witDb2.identities.find? (fun d => decide (d.context = witReq2.context)) = some witCur2 ∧
      witReq2.fields.map (fun f => f.value) = witCur2.fields.map (fun f => f.value) ∧
      add_judgement_request witDb2 witReq2 7 31 = (witDb2, false) :=
  ⟨by decide, by decide,
    claim_C2_upsert_idempotent witDb2 witReq2 witCur2 7 31 (by decide) (by decide)⟩

/-- C4: failure counters are asymmetric between the two stages.  In
`verify_message`, when the matched field's primary challenge is unverified
and no message value contains the expected nonce, that field's
`failed_attempts` is incremented by exactly 1 and a
`FieldVerificationFailed` event is emitted.  In `verify_second_challenge`,
when the trimmed challenge does not contain the secondary nonce, a
`SecondFieldVerificationFailed` event is emitted and the stored state --
in particular every `failed_attempts` counter -- is left unchanged. -/
theorem claim_C4_failure_counter_asymmetry (db : DbState) (s : JudgementState)
    (l1 l2 : List IdentityField) (fs : IdentityField) (msg : ExternalMessage)
    (req : VerifyChallenge) (exp sec : ExpectedMessage) (now offset : Nat)
    (hdb : db.identities = [s])
    (hsf : s.fields = l1 ++ fs :: l2)
    (hl1m : ∀ f ∈ l1, matches_origin f.value msg.origin = false)
    (hfsm : matches_origin fs.value msg.origin = true)
    (hl1v : ∀ f ∈ l1, decide (f.value = req.entry) = false)
    (hentry : req.entry = fs.value)
    (hch : fs.challenge = .expectedMessage exp (some sec))
    (hexp : exp.is_verified = false)
    (hnf : s.is_fully_verified = false)
    (hA : ∀ v ∈ msg.values, strContains v exp.value = false)
    (hB : strContains (trimString req.challenge) sec.value = false) :
    verify_message db msg now offset =
        .ok { identities := [s.setFields (l1 ++ incFailedAttempts fs :: l2)],
              events := db.events ++
                [{ timestamp := now,
                   event := .fieldVerificationFailed s.context fs.value }] } ∧
      verify_second_challenge db req now offset =
        .ok ({ identities := [s],
               events := db.events ++
                 [{ timestamp := now,
                    event := .secondFieldVerificationFailed s.context fs.value }] },
          false) := by
  have hmem : fs ∈ s.fields := by
    rw [hsf]
    exact List.mem_append_right _ (List.mem_cons_self _ _)
  have hcf : s.check_full_verification = false := by
    rw [JudgementState.check_full_verification, hsf]
    simp [List.all_append, hch, ChallengeType.is_verified, hexp]
  have hreset : ∀ (d : JudgementState), d.context = s.context →
      d.is_fully_verified = false →
      updateOne (resetGuard s.context) resetSet [d] = ([d], 0) := by
    intro d hctx hifv
    apply updateOne_of_forall_false
    intro x hx
    rw [List.mem_singleton] at hx
    subst hx
    simp [resetGuard, hctx, hifv]
  constructor
  · have hdoc : (s.fields.any (fun f => matches_origin f.value msg.origin)) = true := by
      rw [List.any_eq_true]
      exact ⟨fs, hmem, hfsm⟩
    have hfind : s.fields.find? (fun f => matches_origin f.value msg.origin) = some fs := by
      rw [hsf]
      exact find?_append_cons hl1m hfsm
    have hany : (msg.values.any (fun v => strContains v exp.value)) = false := by
      rw [List.any_eq_false]
      intro v hv
      simp [hA v hv]
    have hog : originFieldGuard s.context msg.origin s = true := by
      simp only [originFieldGuard, hdoc, Bool.and_true]
      simp
    have hs2 : s.setFields (setFirstWhere (fun f => matches_origin f.value msg.origin)
        incFailedAttempts s.fields) = s.setFields (l1 ++ incFailedAttempts fs :: l2) := by
      rw [hsf, setFirstWhere_append hl1m hfsm]
    have hpfv : process_fully_verified
        (DbState.mk [s.setFields (l1 ++ incFailedAttempts fs :: l2)]
          (db.events ++ [⟨now, .fieldVerificationFailed s.context fs.value⟩])) s now offset =
        DbState.mk [s.setFields (l1 ++ incFailedAttempts fs :: l2)]
          (db.events ++ [⟨now, .fieldVerificationFailed s.context fs.value⟩]) := by
      have hr := hreset (s.setFields (l1 ++ incFailedAttempts fs :: l2)) rfl hnf
      simp [process_fully_verified, hcf, hr]
    have hstep : verify_message_step db s msg now offset =
        .ok (DbState.mk [s.setFields (l1 ++ incFailedAttempts fs :: l2)]
          (db.events ++ [⟨now, .fieldVerificationFailed s.context fs.value⟩])) := by
      simp only [verify_message_step, hfind, hch, ChallengeType.is_verified, hexp,
        Bool.false_and, Bool.false_eq_true, if_false, hany, hdb, updateMany,
        hog, if_true, DbState.insertEvent]
      simp only [hs2]
      simpa using hpfv
    unfold verify_message
    rw [hdb]
    simp only [List.filter, hdoc, List.foldl]
    exact hstep
  · have hdocB : (s.fields.any (fun f => decide (f.value = req.entry))) = true := by
      rw [List.any_eq_true]
      exact ⟨fs, hmem, by simp [hentry]⟩
    have hfindB : s.fields.find? (fun f => decide (f.value = req.entry)) = some fs := by
      rw [hsf]
      exact find?_append_cons hl1v (by simp [hentry])
    have hpfvB : process_fully_verified
        (DbState.mk [s]
          (db.events ++ [⟨now, .secondFieldVerificationFailed s.context fs.value⟩]))
          s now offset =
        DbState.mk [s]
          (db.events ++ [⟨now, .secondFieldVerificationFailed s.context fs.value⟩]) := by
      have hr := hreset s rfl hnf
      simp [process_fully_verified, hcf, hr]
    have hstepB : verify_second_challenge_step (db, false) s req.entry
        (trimString req.challenge) now offset =
        .ok (DbState.mk [s]
          (db.events ++ [⟨now, .secondFieldVerificationFailed s.context fs.value⟩]),
          false) := by
      simp only [verify_second_challenge_step, hfindB, hch, hB, Bool.false_eq_true,
        if_false, DbState.insertEvent, hdb]
      simpa using hpfvB
    unfold verify_second_challenge
    rw [hdb]
    simp only [List.filter, hdocB, List.foldl]
    exact hstepB

def witFs4 : IdentityField :=
  { value := .email "alice@e.com"
    challenge := .expectedMessage { value := "deadbeef", is_verified := false }
      (some { value := "cafe", is_verified := false })
    failed_attempts := 0 }

def witS4 : JudgementState :=
  { context := { address := "alice", chain := .polkadot }
    is_fully_verified := false
    inserted_timestamp := 1
    completion_timestamp := none
    judgement_submitted := false
    issue_judgement_at := none
    fields := [witFs4] }

def witDb4 : DbState := { identities := [witS4], events := [] }

def witMsg4 : ExternalMessage :=
  { origin := .email "alice@e.com"
    id := 1
    timestamp := 2
    values := ["no nonce here"] }

def witReq4 : VerifyChallenge := { entry := .email "alice@e.com", challenge := "  wrong " }

theorem claim_C4_witness :
    matches_origin witFs4.value witMsg4.origin = true ∧
      (∀ v ∈ witMsg4.values, strContains v "deadbeef" = false) ∧
      strContains (trimString witReq4.challenge) "cafe" = false ∧
      verify_message witDb4 witMsg4 3 40 =
        .ok { identities := [witS4.setFields [incFailedAttempts witFs4]],
              events := [⟨3, .fieldVerificationFailed witS4.context witFs4.value⟩] } ∧
      verify_second_challenge witDb4 witReq4 3 40 =
        .ok ({ identities := [witS4],
               events := [⟨3, .secondFieldVerificationFailed witS4.context witFs4.value⟩] },
          false) := by
  have h := claim_C4_failure_counter_asymmetry witDb4 witS4 [] [] witFs4 witMsg4 witReq4
    { value := "deadbeef", is_verified := false } { value := "cafe", is_verified := false }
    3 40 (by decide) (by decide) (by decide) (by decide) (by decide) (by decide)
    (by decide) (by decide) (by decide) (by decide) (by decide)
  refine ⟨by decide, by decide, by decide, ?_, ?_⟩
  · rw [h.1]
    rfl
  · rw [h.2]
    rfl

/-- The document components of a `JudgementState` other than `fields`:
`verify_manually` only rewrites the `fields` array, so these are
invariants of it. -/
def stateFlags (d : JudgementState) :
    IdentityContext × Bool × Bool × Option Nat × Option Nat :=
  (d.context, d.is_fully_verified, d.judgement_submitted, d.completion_timestamp,
    d.issue_judgement_at)

theorem bind_ok_eq {ε α β : Type} (a : α) (k : α → Except ε β) :
    (Except.ok a : Except ε α) >>= k = k a := rfl

theorem verify_manually_no_full_check (db : DbState) (ctx : IdentityContext)
    (field : RawFieldName) (now offset : Nat) (hf : ¬field = RawFieldName.all) :
    ∃ db2 o, verify_manually db ctx field false now offset = .ok (db2, o) ∧
      db2.events = db.events ∧
      db2.identities.map stateFlags = db.identities.map stateFlags := by
  refine ⟨{ db with identities :=
      (updateOne (manualGuard ctx field) (manualApply field) db.identities).1 },
    if (updateOne (manualGuard ctx field) (manualApply field) db.identities).2 == 0
      then none else some (),
    ?_, rfl, updateOne_fst_map (fun d => rfl)⟩
  simp only [verify_manually, hf, if_false]
  by_cases hz :
      ((updateOne (manualGuard ctx field) (manualApply field) db.identities).2 == 0) = true
  · simp [hz]
  · simp [hz]

/-- C7: `full_manual_verification` CAS-updates the context's document to
`is_fully_verified = true, judgement_submitted = false,
completion_timestamp = now, issue_judgement_at = now + offset`; exactly
when that update modified the document it runs the six per-field manual
verifications (with no full check, so no extra events, silently ignoring
absent fields) and then appends the `FullManualVerification` event, and it
returns whether the state was modified. -/
theorem claim_C7_full_manual_verification (db : DbState) (ctx : IdentityContext)
    (now offset : Nat) (d : JudgementState)
    (h30 : 30 ≤ offset) (h300 : offset < 300)
    (hd : db.identities.find? (fun x => decide (x.context = ctx)) = some d) :
    (fullSet now offset d ≠ d →
      ∃ db2, full_manual_verification db ctx now offset = .ok (db2, true) ∧
        db2.events = db.events ++ [⟨now, .fullManualVerification ctx⟩] ∧
        ∃ d2 ∈ db2.identities, d2.context = ctx ∧ d2.is_fully_verified = true ∧
          d2.judgement_submitted = false ∧ d2.completion_timestamp = some now ∧
          d2.issue_judgement_at = some (now + offset) ∧
          now + 30 ≤ now + offset ∧ now + offset ≤ now + 300) ∧
      (fullSet now offset d = d →
        full_manual_verification db ctx now offset = .ok (db, false)) := by
  obtain ⟨l1, l2, heq, hall, hp⟩ := find?_state_decomp hd
  have hctx : d.context = ctx := of_decide_eq_true hp
  constructor
  · intro hne
    have hup : updateOne (fun x => decide (x.context = ctx)) (fullSet now offset)
        db.identities = (l1 ++ fullSet now offset d :: l2, 1) := by
      rw [heq, updateOne_append hall hp, if_neg hne]
    obtain ⟨dbA, oA, hA1, hevA, hflA⟩ := verify_manually_no_full_check
      (DbState.mk (l1 ++ fullSet now offset d :: l2) db.events) ctx .legalName now offset
      (by simp)
    obtain ⟨dbB, oB, hB1, hevB, hflB⟩ := verify_manually_no_full_check
      dbA ctx .displayName now offset (by simp)
    obtain ⟨dbC, oC, hC1, hevC, hflC⟩ := verify_manually_no_full_check
      dbB ctx .email now offset (by simp)
    obtain ⟨dbD, oD, hD1, hevD, hflD⟩ := verify_manually_no_full_check
      dbC ctx .web now offset (by simp)
    obtain ⟨dbE, oE, hE1, hevE, hflE⟩ := verify_manually_no_full_check
      dbD ctx .twitter now offset (by simp)
    obtain ⟨dbF, oF, hF1, hevF, hflF⟩ := verify_manually_no_full_check
      dbE ctx .matrix now offset (by simp)
    refine ⟨dbF.insertEvent now (.fullManualVerification ctx), ?_, ?_, ?_⟩
    · simp only [full_manual_verification, hup, hA1, hB1, hC1, hD1, hE1, hF1,
        bind_ok_eq]
      rfl
    · simp [DbState.insertEvent, hevF, hevE, hevD, hevC, hevB, hevA]
    · have hmemA : fullSet now offset d ∈ l1 ++ fullSet now offset d :: l2 :=
        List.mem_append_right _ (List.mem_cons_self _ _)
      have hmm : stateFlags (fullSet now offset d) ∈
          (l1 ++ fullSet now offset d :: l2).map stateFlags :=
        List.mem_map_of_mem _ hmemA
      have hmm2 : stateFlags (fullSet now offset d) ∈ dbF.identities.map stateFlags := by
        rw [hflF, hflE, hflD, hflC, hflB, hflA]
        exact hmm
      obtain ⟨d2, hd2, hflag⟩ := List.mem_map.mp hmm2
      have hcomp : d2.context = (fullSet now offset d).context ∧
          d2.is_fully_verified = (fullSet now offset d).is_fully_verified ∧
          d2.judgement_submitted = (fullSet now offset d).judgement_submitted ∧
          d2.completion_timestamp = (fullSet now offset d).completion_timestamp ∧
          d2.issue_judgement_at = (fullSet now offset d).issue_judgement_at := by
        simpa [stateFlags, Prod.ext_iff] using hflag
      refine ⟨d2, hd2, ?_, ?_, ?_, ?_, ?_, Nat.add_le_add_left h30 now,
        Nat.add_le_add_left (Nat.le_of_lt h300) now⟩
      · rw [hcomp.1]
        exact hctx
      · exact hcomp.2.1
      · exact hcomp.2.2.1
      · exact hcomp.2.2.2.1
      · exact hcomp.2.2.2.2
  · intro heqd
    have hup0 : updateOne (fun x => decide (x.context = ctx)) (fullSet now offset)
        db.identities = (db.identities, 0) := by
      rw [heq, updateOne_append hall hp, if_pos heqd, heqd]
    simp only [full_manual_verification, hup0]
    rfl

def witD7 : JudgementState :=
  { context := { address := "manual", chain := .polkadot }
    is_fully_verified := false
    inserted_timestamp := 2
    completion_timestamp := none
    judgement_submitted := false
    issue_judgement_at := none
    fields := [] }

def witDb7 : DbState := { identities := [witD7], events := [] }

theorem claim_C7_witness :
    30 ≤ 60 ∧ 60 < 300 ∧
      witDb7.identities.find? (fun x => decide (x.context = witD7.context)) = some witD7 ∧
      ∃ db2, full_manual_verification witDb7 witD7.context 500 60 = .ok (db2, true) ∧
        db2.events = witDb7.events ++ [⟨500, .fullManualVerification witD7.context⟩] := by
  have h := (claim_C7_full_manual_verification witDb7 witD7.context 500 60 witD7
    (by decide) (by decide) (by decide)).1 (by decide)
  obtain ⟨db2, h1, h2, _⟩ := h
  exact ⟨by decide, by decide, by decide, db2, h1, h2⟩
